import Mathlib

/-!
Verification development for the whale-tracker ingestion-and-storage core.

The definitions below are a shallow embedding of the TypeScript sources:
the significance classifier, event builder and SQLite-backed event store
(`packages/events`), the CoinGecko price oracle (`lib/price-oracle.ts`),
the on-chain indexer (`packages/indexer`), and the pagination protocol of
the API layer (`packages/api`).  JavaScript numbers that carry USD values
are modelled as rationals, timestamps as naturals, and the SQLite `events`
table as a list of rows.
-/

namespace WhaleTracker

/-- Model of JavaScript `String.prototype.toLowerCase` (character-wise). -/
def jsToLower (s : String) : String := ⟨s.data.map Char.toLower⟩

/-- Model of JavaScript `String.prototype.toUpperCase` (character-wise). -/
def jsToUpper (s : String) : String := ⟨s.data.map Char.toUpper⟩

/-- The `Chain` union type of `shared/src/index.ts`. -/
inductive Chain
  | ethereum
  | solana
  | base
deriving DecidableEq

/-- The string carried by each `Chain` value. -/
def Chain.name : Chain → String
  | .ethereum => "ethereum"
  | .solana => "solana"
  | .base => "base"

/-- The `thresholds` record of `Config` in `shared/src/index.ts`. -/
structure Thresholds where
  high : ℚ
  medium : ℚ
  low : ℚ
deriving DecidableEq

/-- `DEFAULT_CONFIG.thresholds` from `shared/src/index.ts`. -/
def DEFAULT_CONFIG_thresholds : Thresholds :=
  { high := 1000000, medium := 100000, low := 10000 }

/-- `DEFAULT_CONFIG.pollIntervalMs` from `shared/src/index.ts`. -/
def DEFAULT_CONFIG_pollIntervalMs : Nat := 15000

/-- Significance labels, ordered `low < medium < high`. -/
inductive Significance
  | low
  | medium
  | high
deriving DecidableEq

/-- The `type` field of a `WhaleEvent`. -/
inductive EventType
  | transfer_in
  | transfer_out
  | swap
deriving DecidableEq

/-- The `Transfer` interface of `shared/src/index.ts`.  The raw on-chain
`value` string is carried verbatim; `valueUsd` is a rational. -/
structure Transfer where
  hash : String
  chain : Chain
  fromAddr : String
  toAddr : String
  value : String
  valueUsd : ℚ
  token : String
  tokenSymbol : Option String
  blockNumber : Nat
  timestamp : Nat
deriving DecidableEq

/-- The `WhaleEvent` interface of `shared/src/index.ts`. -/
structure WhaleEvent where
  id : String
  type : EventType
  wallet : String
  walletLabel : Option String
  chain : Chain
  transfer : Transfer
  significance : Significance
  createdAt : Nat
deriving DecidableEq

/-- `classifySignificance` from `packages/events/src/index.ts`:
`high` if `valueUsd >= thresholds.high`, else `medium` if
`valueUsd >= thresholds.medium`, else `low`. -/
def classifySignificance (valueUsd : ℚ) (thresholds : Thresholds) : Significance :=
  if valueUsd ≥ thresholds.high then .high
  else if valueUsd ≥ thresholds.medium then .medium
  else .low

/-- `generateEventId` from `packages/events/src/index.ts`:
the template string `chain:hash:wallet`. -/
def generateEventId (transfer : Transfer) (wallet : String) : String :=
  transfer.chain.name ++ ":" ++ transfer.hash ++ ":" ++ wallet

/-- `createEvent` from `packages/events/src/index.ts`.  `now` stands for the
`Date.now()` call that stamps `createdAt`. -/
def createEvent (transfer : Transfer) (wallet : String) (walletLabel : Option String)
    (now : Nat) : WhaleEvent :=
  let isIncoming := jsToLower transfer.toAddr == jsToLower wallet
  { id := generateEventId transfer wallet
    type := if isIncoming then .transfer_in else .transfer_out
    wallet := wallet
    walletLabel := walletLabel
    chain := transfer.chain
    transfer := transfer
    significance := classifySignificance transfer.valueUsd DEFAULT_CONFIG_thresholds
    createdAt := now }

/-- The `SIGNIFICANCE_ORDER` table of `packages/events/src/index.ts`. -/
def SIGNIFICANCE_ORDER : Significance → Nat
  | .low => 1
  | .medium => 2
  | .high => 3

/-- One row of the SQLite `events` table created by `SQLiteEventStore.init`.
`transfer_json` holds the `JSON.stringify`d transfer; serialization is
modelled as the identity. -/
structure EventRow where
  id : String
  type : EventType
  wallet : String
  wallet_label : Option String
  chain : Chain
  transfer_json : Transfer
  significance : Significance
  significance_order : Nat
  created_at : Nat
deriving DecidableEq

/-- The SQLite `events` table. -/
abbrev EventTable := List EventRow

/-- A `WhaleEvent` value as it arrives at `SQLiteEventStore.insert` at run
time: each field that the schema requires may in fact be absent. -/
structure RawEvent where
  id : Option String
  type : Option EventType
  wallet : Option String
  walletLabel : Option String
  chain : Option Chain
  transfer : Option Transfer
  significance : Option Significance
  createdAt : Option Nat
deriving DecidableEq

/-- The synchronous rejection an insert of a malformed event produces: the
schema's NOT NULL constraints and the parameter-binding layer refuse an
absent required field before any row is written. -/
inductive ValidationError
  | missingRequiredField
deriving DecidableEq

/-- `INSERT OR REPLACE` keyed by the primary key `id`: any existing row with
the same id is replaced by the new row. -/
def upsertRow (rows : EventTable) (r : EventRow) : EventTable :=
  rows.filter (fun x => x.id != r.id) ++ [r]

/-- `SQLiteEventStore.insert` from `packages/events/src/index.ts` applied to
a possibly malformed event.  A missing required field (any NOT NULL column
of the schema) is rejected synchronously with no change to the table;
otherwise the row is upserted by id.  `wallet_label` is nullable
(`event.walletLabel ?? null`). -/
def SQLiteEventStore.insertRaw (rows : EventTable) (e : RawEvent) :
    Except ValidationError EventTable :=
  match e.id, e.type, e.wallet, e.chain, e.transfer, e.significance, e.createdAt with
  | some i, some ty, some w, some ch, some tr, some sig, some ca =>
    .ok (upsertRow rows
      { id := i, type := ty, wallet := w, wallet_label := e.walletLabel,
        chain := ch, transfer_json := tr, significance := sig,
        significance_order := SIGNIFICANCE_ORDER sig, created_at := ca })
  | _, _, _, _, _, _, _ => .error .missingRequiredField

/-- The well-typed `WhaleEvent` seen as the run-time value passed to
`SQLiteEventStore.insert`: every required field is present. -/
def WhaleEvent.toRaw (e : WhaleEvent) : RawEvent :=
  { id := some e.id, type := some e.type, wallet := some e.wallet,
    walletLabel := e.walletLabel, chain := some e.chain,
    transfer := some e.transfer, significance := some e.significance,
    createdAt := some e.createdAt }

/-- The row a well-formed `WhaleEvent` is stored as. -/
def rowOfEvent (e : WhaleEvent) : EventRow :=
  { id := e.id, type := e.type, wallet := e.wallet, wallet_label := e.walletLabel,
    chain := e.chain, transfer_json := e.transfer, significance := e.significance,
    significance_order := SIGNIFICANCE_ORDER e.significance, created_at := e.createdAt }

/-- `SQLiteEventStore.insert` on a well-formed event. -/
def SQLiteEventStore.insert (rows : EventTable) (e : WhaleEvent) : EventTable :=
  upsertRow rows (rowOfEvent e)

theorem insertRaw_toRaw (rows : EventTable) (e : WhaleEvent) :
    SQLiteEventStore.insertRaw rows e.toRaw = .ok (SQLiteEventStore.insert rows e) := rfl

/-- The `QueryOptions` interface of `packages/events/src/index.ts`.  The
`cursor` string of the TypeScript interface is parsed with `parseInt`
before use; it is modelled here by its numeric value.  `limit` defaults to
100 at the use site. -/
structure QueryOptions where
  chain : Option Chain
  minSignificance : Option Significance
  limit : Nat
  cursor : Option Nat
deriving DecidableEq

/-- The WHERE clause assembled by `SQLiteEventStore.query`:
`chain = ?`, `significance_order >= ?` and `created_at < ?` for the
conditions that are present. -/
def matchesQuery (o : QueryOptions) (r : EventRow) : Bool :=
  (match o.chain with
    | none => true
    | some c => r.chain == c)
  && (match o.minSignificance with
    | none => true
    | some m => decide (SIGNIFICANCE_ORDER m ≤ r.significance_order))
  && (match o.cursor with
    | none => true
    | some cur => decide (r.created_at < cur))

/-- `ORDER BY created_at DESC`.  SQLite's sort is modelled by an insertion
sort for the descending order on `created_at` (tie order among equal
timestamps is an implementation detail either way). -/
def orderByCreatedAtDesc (rows : EventTable) : EventTable :=
  List.insertionSort (fun a b => b.created_at ≤ a.created_at) rows

/-- The row-to-object mapping both `query` and `getByWallet` apply to the
rows they read back. -/
def rowToEvent (r : EventRow) : WhaleEvent :=
  { id := r.id, type := r.type, wallet := r.wallet, walletLabel := r.wallet_label,
    chain := r.chain, transfer := r.transfer_json, significance := r.significance,
    createdAt := r.created_at }

/-- `SQLiteEventStore.query` from `packages/events/src/index.ts`:
filter by the assembled WHERE clause, order by `created_at` descending,
apply `LIMIT`, and map rows back to events. -/
def SQLiteEventStore.query (rows : EventTable) (o : QueryOptions) : List WhaleEvent :=
  ((orderByCreatedAtDesc (rows.filter (matchesQuery o))).take o.limit).map rowToEvent

/-- `SQLiteEventStore.getByWallet`: `WHERE wallet = ?` with the *argument*
lowercased (`wallet.toLowerCase()`), ordered by `created_at` descending,
with a result cap (50 at the use-site default). -/
def SQLiteEventStore.getByWallet (rows : EventTable) (wallet : String) (limit : Nat) :
    List WhaleEvent :=
  ((orderByCreatedAtDesc (rows.filter (fun r => r.wallet == jsToLower wallet))).take
    limit).map rowToEvent

/-- The `GET /whale-moves` handler of `packages/api/src/index.ts`:
request `limit + 1` rows, report a continuation cursor (the `createdAt`
of the last returned event, stringified) exactly when more rows exist. -/
def whaleMovesPage (rows : EventTable) (chain : Option Chain) (limit : Nat)
    (cursor : Option Nat) (minSignificance : Option Significance) :
    List WhaleEvent × Option String :=
  let events := SQLiteEventStore.query rows
    { chain := chain, minSignificance := minSignificance, limit := limit + 1,
      cursor := cursor }
  let hasMore := events.length > limit
  let resultEvents := if hasMore then events.take limit else events
  let nextCursor : Option String :=
    if hasMore then
      match resultEvents.getLast? with
      | some e => some (toString e.createdAt)
      | none => none
    else none
  (resultEvents, nextCursor)

/-- A `PriceCacheEntry` of `lib/price-oracle.ts`: `{price, timestamp}`. -/
structure PriceCacheEntry where
  price : ℚ
  timestamp : Nat
deriving DecidableEq

/-- The oracle's in-memory `Map<string, {price, timestamp}>`. -/
abbrev PriceCache := List (String × PriceCacheEntry)

/-- Lookup in a JavaScript `Map` / object literal modelled as an
association list. -/
def lookupAssoc {β : Type} (m : List (String × β)) (k : String) : Option β :=
  (m.find? (fun p => p.1 == k)).map (fun p => p.2)

/-- `Map.set`: bind `k` to `v`, overwriting any previous binding. -/
def setAssoc {β : Type} (m : List (String × β)) (k : String) (v : β) :
    List (String × β) :=
  m.filter (fun p => p.1 != k) ++ [(k, v)]

/-- The `STABLECOINS` set of `lib/price-oracle.ts`. -/
def STABLECOINS : List String := ["USDC", "USDT", "DAI", "BUSD", "TUSD", "FRAX"]

/-- The `SYMBOL_TO_COINGECKO` table of `lib/price-oracle.ts`. -/
def SYMBOL_TO_COINGECKO : List (String × String) :=
  [("ETH", "ethereum"), ("WETH", "ethereum"), ("BTC", "bitcoin"),
   ("WBTC", "wrapped-bitcoin"), ("USDC", "usd-coin"), ("USDT", "tether"),
   ("DAI", "dai"), ("LINK", "chainlink"), ("UNI", "uniswap"), ("AAVE", "aave"),
   ("MKR", "maker"), ("SNX", "synthetix-network-token"),
   ("COMP", "compound-governance-token"), ("CRV", "curve-dao-token"),
   ("LDO", "lido-dao"), ("RPL", "rocket-pool"), ("ARB", "arbitrum"),
   ("OP", "optimism"), ("MATIC", "matic-network"), ("SOL", "solana")]

/-- The `cached?.price ?? 0` fallback of the oracle's failure path: the
cached price of a symbol when an entry exists, and 0 otherwise. -/
def cachedPriceOr0 (cache : PriceCache) (symbol : String) : ℚ :=
  ((lookupAssoc cache symbol).map (fun c => c.price)).getD 0

/-- Outcome of the single batched CoinGecko request: either the decoded
response body (CoinGecko id to USD price), or a failure (a non-ok HTTP
response and a thrown transport error take the same handling path). -/
inductive FetchOutcome
  | ok (data : List (String × ℚ))
  | failure

/-- One iteration of the first loop of `CoinGeckoPriceOracle.getPrices`:
resolve a stablecoin to 1 and a fresh cache hit to the cached price, send an
unmapped symbol to 0 with no network call, and push the remaining (stale or
unseen, mapped) symbols onto `symbolsToFetch`. -/
def scanStep (cache : PriceCache) (cacheTtlMs now : Nat)
    (acc : List (String × ℚ) × List String) (symbol : String) :
    List (String × ℚ) × List String :=
  let upperSymbol := jsToUpper symbol
  if upperSymbol ∈ STABLECOINS then
    (setAssoc acc.1 upperSymbol 1, acc.2)
  else
    match lookupAssoc cache upperSymbol with
    | some cached =>
      if now - cached.timestamp < cacheTtlMs then
        (setAssoc acc.1 upperSymbol cached.price, acc.2)
      else
        match lookupAssoc SYMBOL_TO_COINGECKO upperSymbol with
        | some _ => (acc.1, acc.2 ++ [upperSymbol])
        | none => (setAssoc acc.1 upperSymbol 0, acc.2)
    | none =>
      match lookupAssoc SYMBOL_TO_COINGECKO upperSymbol with
      | some _ => (acc.1, acc.2 ++ [upperSymbol])
      | none => (setAssoc acc.1 upperSymbol 0, acc.2)

/-- First loop of `CoinGeckoPriceOracle.getPrices` over all requested
symbols, starting from an empty result and an empty fetch list. -/
def scanSymbols (cache : PriceCache) (cacheTtlMs now : Nat)
    (symbols : List String) : List (String × ℚ) × List String :=
  symbols.foldl (scanStep cache cacheTtlMs now) ([], [])

/-- One iteration of the success loop of `getPrices`: map the symbol back
through `SYMBOL_TO_COINGECKO`, read `data[coingeckoId]?.usd ?? 0` off the
response, and record the price in both the result and the cache
(timestamped `now`). -/
def fetchStep (data : List (String × ℚ)) (now : Nat)
    (acc : List (String × ℚ) × PriceCache) (symbol : String) :
    List (String × ℚ) × PriceCache :=
  let price :=
    match lookupAssoc SYMBOL_TO_COINGECKO symbol with
    | some coingeckoId => (lookupAssoc data coingeckoId).getD 0
    | none => 0
  (setAssoc acc.1 symbol price,
   setAssoc acc.2 symbol { price := price, timestamp := now })

/-- `CoinGeckoPriceOracle.getPrices`.  The batched network request is
abstracted by its `FetchOutcome`.  On success every fetched symbol's price
is recorded in the result and the cache (timestamped `now`); on failure the
fetched symbols resolve to their cached price or 0 and the cache is not
touched.  The call itself never throws: the transport error is caught. -/
def CoinGeckoPriceOracle.getPrices (cache : PriceCache) (cacheTtlMs now : Nat)
    (symbols : List String) (fetch : FetchOutcome) :
    List (String × ℚ) × PriceCache :=
  let scanned := scanSymbols cache cacheTtlMs now symbols
  let result := scanned.1
  let symbolsToFetch := scanned.2
  if symbolsToFetch.isEmpty then
    (result, cache)
  else
    match fetch with
    | .failure =>
      (symbolsToFetch.foldl
        (fun res symbol => setAssoc res symbol (cachedPriceOr0 cache symbol))
        result, cache)
    | .ok data =>
      symbolsToFetch.foldl (fetchStep data now) (result, cache)

/-- The `Wallet` interface of `shared/src/index.ts`. -/
structure Wallet where
  address : String
  chain : Chain
  label : Option String
  source : Option String
  addedAt : Nat
  tags : List String
deriving DecidableEq

/-- The fields of `IndexerConfig` the processing logic reads. -/
structure IndexerConfig where
  chain : Chain
  pollIntervalMs : Nat
  minValueUsd : ℚ
deriving DecidableEq

/-- The fields of an `ethers.TransactionResponse` the indexer reads.
`from` and `to` are nullable in ethers; the raw `value` (wei) is a
natural number. -/
structure Tx where
  hash : String
  fromAddr : Option String
  toAddr : Option String
  value : Nat
  blockNumber : Option Nat
deriving DecidableEq

/-- The fields of an ethers block the indexer reads;
`prefetchedTransactions` may be absent. -/
structure Block where
  timestamp : Nat
  prefetchedTransactions : Option (List Tx)

/-- The mutable fields of the `Indexer` class that the processing logic
reads and writes. -/
structure IndexerState where
  config : IndexerConfig
  walletMap : List (String × Wallet)
  ethPrice : ℚ
  lastBlock : Nat
  store : EventTable
deriving DecidableEq

/-- `ethers.formatEther` followed by `parseFloat`: wei to ether, modelled
exactly as division by 10^18 in ℚ. -/
def formatEther (value : Nat) : ℚ := (value : ℚ) / 10 ^ 18

/-- The `Transfer` literal `Indexer.processTransaction` builds once either
party is tracked and the USD value passes the minimum. -/
def builtTransfer (st : IndexerState) (tx : Tx) (timestamp : Nat) : Transfer :=
  { hash := tx.hash, chain := st.config.chain,
    fromAddr := tx.fromAddr.getD "", toAddr := tx.toAddr.getD "",
    value := toString tx.value, valueUsd := formatEther tx.value * st.ethPrice,
    token := "native", tokenSymbol := some "ETH",
    blockNumber := tx.blockNumber.getD 0, timestamp := timestamp }

/-- `Indexer.processTransaction`.  Lowercase both parties, look them up in
the wallet map; discard if neither is tracked or if the USD value is below
`config.minValueUsd`; otherwise build the shared `Transfer` and insert one
event per tracked side (from side first).  The second component reports an
insert rejection escaping the method; the first carries the state as left
behind (earlier inserts of the same call persist). -/
def Indexer.processTransaction (st : IndexerState) (tx : Tx) (timestamp now : Nat) :
    IndexerState × Option ValidationError :=
  let fromL := tx.fromAddr.map jsToLower
  let toL := tx.toAddr.map jsToLower
  let fromWallet := fromL.bind (lookupAssoc st.walletMap)
  let toWallet := toL.bind (lookupAssoc st.walletMap)
  if fromWallet.isNone && toWallet.isNone then
    (st, none)
  else
    let valueEth := formatEther tx.value
    let valueUsd := valueEth * st.ethPrice
    if valueUsd < st.config.minValueUsd then
      (st, none)
    else
      let transfer : Transfer := builtTransfer st tx timestamp
      match fromWallet with
      | some w =>
        match SQLiteEventStore.insertRaw st.store
            (createEvent transfer w.address w.label now).toRaw with
        | .error err => (st, some err)
        | .ok s1 =>
          match toWallet with
          | some w2 =>
            match SQLiteEventStore.insertRaw s1
                (createEvent transfer w2.address w2.label now).toRaw with
            | .error err => ({ st with store := s1 }, some err)
            | .ok s2 => ({ st with store := s2 }, none)
          | none => ({ st with store := s1 }, none)
      | none =>
        match toWallet with
        | some w2 =>
          match SQLiteEventStore.insertRaw st.store
              (createEvent transfer w2.address w2.label now).toRaw with
          | .error err => (st, some err)
          | .ok s2 => ({ st with store := s2 }, none)
        | none => (st, none)

/-- The inner transaction loop of `Indexer.poll` over one block's
transaction list; an insert rejection escapes the loop. -/
def Indexer.processTxList (st : IndexerState) (txs : List Tx) (timestamp now : Nat) :
    IndexerState × Option ValidationError :=
  match txs with
  | [] => (st, none)
  | tx :: rest =>
    match Indexer.processTransaction st tx timestamp now with
    | (st', none) => Indexer.processTxList st' rest timestamp now
    | (st', some err) => (st', some err)

/-- An error escaping one poll iteration: a chain-RPC failure
(`provider.getBlock` throwing) or an event-store rejection. -/
inductive IndexError
  | rpc
  | store (err : ValidationError)
deriving DecidableEq

/-- The block loop of `Indexer.poll`:
`getBlock` models `provider.getBlock(blockNum, true)` (`Except.error` for a
thrown RPC error, `none` for a null block); a null block or one without
`prefetchedTransactions` is skipped (`continue`); any thrown error escapes
with the state as mutated so far. -/
def Indexer.scanBlocks (getBlock : Nat → Except Unit (Option Block)) (now : Nat)
    (st : IndexerState) (heights : List Nat) : IndexerState × Option IndexError :=
  match heights with
  | [] => (st, none)
  | blockNum :: rest =>
    match getBlock blockNum with
    | .error _ => (st, some .rpc)
    | .ok none => Indexer.scanBlocks getBlock now st rest
    | .ok (some block) =>
      match block.prefetchedTransactions with
      | none => Indexer.scanBlocks getBlock now st rest
      | some txs =>
        match Indexer.processTxList st txs block.timestamp now with
        | (st', none) => Indexer.scanBlocks getBlock now st' rest
        | (st', some err) => (st', some (.store err))

/-- `Indexer.poll`: no-op when the chain head `currentBlock` is at or below
`lastBlock`; otherwise scan each height from `lastBlock + 1` up to
`currentBlock` inclusive, and only when the whole range was processed
without a thrown error advance `lastBlock` to `currentBlock`. -/
def Indexer.poll (getBlock : Nat → Except Unit (Option Block)) (currentBlock now : Nat)
    (st : IndexerState) : IndexerState × Option IndexError :=
  if currentBlock ≤ st.lastBlock then
    (st, none)
  else
    match Indexer.scanBlocks getBlock now st
        (List.range' (st.lastBlock + 1) (currentBlock - st.lastBlock)) with
    | (st', none) => ({ st' with lastBlock := currentBlock }, none)
    | (st', some err) => (st', some err)

/-! Concrete fixtures used by witnesses and counterexamples. -/

/-- A fixed transfer payload for store-level fixtures. -/
def fixTransfer : Transfer :=
  { hash := "h", chain := .ethereum, fromAddr := "a", toAddr := "b", value := "0",
    valueUsd := 0, token := "native", tokenSymbol := some "ETH", blockNumber := 1,
    timestamp := 0 }

/-- A stored row with the given `created_at`, used to exercise the query
path on concrete tables. -/
def rowAt (n : Nat) : EventRow :=
  { id := toString n, type := .transfer_in, wallet := "w", wallet_label := none,
    chain := .ethereum, transfer_json := fixTransfer, significance := .low,
    significance_order := 1, created_at := n }

/-- A stored row of high significance, timestamped 400. -/
def rowHigh : EventRow :=
  { id := "high400", type := .transfer_out, wallet := "w", wallet_label := none,
    chain := .ethereum, transfer_json := fixTransfer, significance := .high,
    significance_order := 3, created_at := 400 }

/-- The three-event table of the pagination example, inserted out of order. -/
def demoStore : EventTable := [rowAt 100, rowAt 300, rowAt 200]

/-- A tracked wallet whose registry address is already lowercase. -/
def walletA : Wallet :=
  { address := "0xaaa", chain := .ethereum, label := none, source := none,
    addedAt := 0, tags := [] }

/-- A second tracked lowercase wallet. -/
def walletB : Wallet :=
  { address := "0xbbb", chain := .ethereum, label := some "B", source := none,
    addedAt := 0, tags := [] }

/-- Indexer state tracking `walletA` and `walletB`, ETH price 1, no minimum. -/
def pairState : IndexerState :=
  { config := { chain := .ethereum, pollIntervalMs := 15000, minValueUsd := 0 },
    walletMap := [("0xaaa", walletA), ("0xbbb", walletB)], ethPrice := 1,
    lastBlock := 0, store := [] }

/-- A 1-ETH transaction from `walletA` to `walletB`. -/
def pairTx : Tx :=
  { hash := "h1", fromAddr := some "0xaaa", toAddr := some "0xbbb",
    value := 10 ^ 18, blockNumber := some 5 }

/-- A 1-ETH self-transfer of the tracked wallet `walletA`. -/
def selfTx : Tx :=
  { hash := "h2", fromAddr := some "0xaaa", toAddr := some "0xaaa",
    value := 10 ^ 18, blockNumber := some 5 }

/-- Indexer state with the default 10000 USD minimum and ETH price 1. -/
def minState : IndexerState :=
  { config := { chain := .ethereum, pollIntervalMs := 15000, minValueUsd := 10000 },
    walletMap := [("0xaaa", walletA)], ethPrice := 1, lastBlock := 0, store := [] }

/-- Indexer state tracking only `walletA`, ETH price 1, no minimum. -/
def selfState : IndexerState :=
  { config := { chain := .ethereum, pollIntervalMs := 15000, minValueUsd := 0 },
    walletMap := [("0xaaa", walletA)], ethPrice := 1, lastBlock := 0, store := [] }

/-- A run-time event value whose required `id` field is absent. -/
def rawNoId : RawEvent :=
  { id := none, type := some .transfer_in, wallet := some "w",
    walletLabel := none, chain := some .ethereum, transfer := some fixTransfer,
    significance := some .low, createdAt := some 1 }

/-! ### C1 -/

/-- C1: with the default thresholds high = 1000000, medium = 100000,
low = 10000, `classifySignificance` returns `high` at or above `high`, else
`medium` at or above `medium`, else `low`; and `Indexer.processTransaction`
returns with no event and an unchanged state whenever the transaction's USD
value is below the configured `minValueUsd`, so values below the admission
bar never become events. -/
theorem classify_thresholds_and_min_value_cutoff :
    DEFAULT_CONFIG_thresholds = { high := 1000000, medium := 100000, low := 10000 } ∧
    (∀ v : ℚ, DEFAULT_CONFIG_thresholds.high ≤ v →
      classifySignificance v DEFAULT_CONFIG_thresholds = .high) ∧
    (∀ v : ℚ, v < DEFAULT_CONFIG_thresholds.high → DEFAULT_CONFIG_thresholds.medium ≤ v →
      classifySignificance v DEFAULT_CONFIG_thresholds = .medium) ∧
    (∀ v : ℚ, v < DEFAULT_CONFIG_thresholds.medium →
      classifySignificance v DEFAULT_CONFIG_thresholds = .low) ∧
    (∀ (st : IndexerState) (tx : Tx) (timestamp now : Nat),
      formatEther tx.value * st.ethPrice < st.config.minValueUsd →
      Indexer.processTransaction st tx timestamp now = (st, none)) := by
  refine ⟨rfl, ?_, ?_, ?_, ?_⟩
  · intro v h
    simp [classifySignificance, h]
  · intro v h1 h2
    rw [classifySignificance, if_neg (by exact not_le.mpr h1), if_pos h2]
  · intro v h
    rw [classifySignificance, if_neg, if_neg (not_le.mpr h)]
    have : DEFAULT_CONFIG_thresholds.medium ≤ DEFAULT_CONFIG_thresholds.high := by
      norm_num [DEFAULT_CONFIG_thresholds]
    exact not_le.mpr (lt_of_lt_of_le h this)
  · intro st tx timestamp now h
    rw [Indexer.processTransaction]
    split
    · rfl
    · rw [if_pos h]

/-- Witness for C1 at concrete inputs: 2000000 classifies `high`, and a
1-ETH transaction (1 USD at price 1) is discarded under the 10000 USD
default minimum. -/
theorem classify_thresholds_and_min_value_cutoff_witness :
    classifySignificance 2000000 DEFAULT_CONFIG_thresholds = .high ∧
    Indexer.processTransaction minState selfTx 5 7 = (minState, none) := by
  refine ⟨?_, ?_⟩
  · exact classify_thresholds_and_min_value_cutoff.2.1 2000000 (by norm_num [DEFAULT_CONFIG_thresholds])
  · exact classify_thresholds_and_min_value_cutoff.2.2.2.2 minState selfTx 5 7
      (by norm_num [formatEther, minState, selfTx])

/-! ### C2 -/

/-- C2: `createEvent` gives identical ids to identical (transfer, wallet)
pairs, the id depends only on the chain, the transfer hash and the wallet,
and an insert whose id already exists replaces the row: a double insert
equals a single insert, and the id occurs on exactly one row afterwards. -/
theorem event_id_deterministic_and_insert_idempotent :
    (∀ (transfer : Transfer) (wallet : String) (l l' : Option String) (n n' : Nat),
      (createEvent transfer wallet l n).id = (createEvent transfer wallet l' n').id) ∧
    (∀ (t t' : Transfer) (wallet : String), t.chain = t'.chain → t.hash = t'.hash →
      generateEventId t wallet = generateEventId t' wallet) ∧
    (∀ (rows : EventTable) (e : WhaleEvent),
      SQLiteEventStore.insert (SQLiteEventStore.insert rows e) e
        = SQLiteEventStore.insert rows e) ∧
    (∀ (rows : EventTable) (e e' : WhaleEvent), e.id = e'.id →
      SQLiteEventStore.insert (SQLiteEventStore.insert rows e) e'
        = SQLiteEventStore.insert rows e') ∧
    (∀ (rows : EventTable) (e : WhaleEvent),
      ((SQLiteEventStore.insert rows e).filter (fun r => r.id == e.id)).length = 1) := by
  refine ⟨fun _ _ _ _ _ _ => rfl, ?_, ?_, ?_, ?_⟩
  · intro t t' wallet hc hh
    simp only [generateEventId, hc, hh]
  · intro rows e
    simp [SQLiteEventStore.insert, upsertRow, rowOfEvent, List.filter_append,
      List.filter_filter]
  · intro rows e e' hid
    simp [SQLiteEventStore.insert, upsertRow, rowOfEvent, List.filter_append,
      List.filter_filter, hid]
  · intro rows e
    simp [SQLiteEventStore.insert, upsertRow, rowOfEvent, List.filter_append,
      List.filter_filter]

/-- Witness for C2: the id of a transfer differing from `fixTransfer` only
in non-(chain, hash) fields coincides with `fixTransfer`'s id. -/
theorem event_id_deterministic_and_insert_idempotent_witness :
    generateEventId fixTransfer "w" = generateEventId { fixTransfer with valueUsd := 5 } "w" :=
  event_id_deterministic_and_insert_idempotent.2.1 fixTransfer
    { fixTransfer with valueUsd := 5 } "w" rfl rfl

/-! ### Helper lemmas about the wallet map and event ids -/

/-- A successful wallet-map lookup pins the key to the lowercased address of
the wallet found, provided the map was built as in `Indexer.start`
(`walletMap.set(w.address.toLowerCase(), w)`). -/
theorem lookupAssoc_walletMap_key {m : List (String × Wallet)} {k : String} {w : Wallet}
    (hmap : ∀ p ∈ m, p.1 = jsToLower p.2.address)
    (h : lookupAssoc m k = some w) : k = jsToLower w.address := by
  unfold lookupAssoc at h
  rw [Option.map_eq_some'] at h
  obtain ⟨p, hfind, hp2⟩ := h
  have hmem := List.mem_of_find?_eq_some hfind
  have hpred := List.find?_some hfind
  have hk : p.1 = k := by simpa using hpred
  have := hmap p hmem
  rw [hk, hp2] at this
  exact this

/-- The event id determines the wallet suffix: two ids built from the same
transfer and different wallets differ. -/
theorem generateEventId_wallet_inj {t : Transfer} {w w' : String}
    (h : generateEventId t w = generateEventId t w') : w = w' := by
  unfold generateEventId at h
  have hd := congrArg String.data h
  simp only [String.data_append] at hd
  have := List.append_cancel_left hd
  cases w
  cases w'
  exact congrArg String.mk (by simpa using this)

/-! ### C8 -/

/-- C8: an event reaching `SQLiteEventStore.insert` with any required field
absent (`id`, `type`, `wallet`, `chain`, `transfer`, `significance` or
`createdAt` — the NOT NULL columns of the schema) is rejected synchronously
with a validation error, and no table state results from the call. -/
theorem insert_missing_required_field_rejected :
    ∀ (rows : EventTable) (e : RawEvent),
      e.id = none ∨ e.type = none ∨ e.wallet = none ∨ e.chain = none ∨
        e.transfer = none ∨ e.significance = none ∨ e.createdAt = none →
      SQLiteEventStore.insertRaw rows e = .error .missingRequiredField ∧
      ∀ rows' : EventTable, SQLiteEventStore.insertRaw rows e ≠ .ok rows' := by
  intro rows e h
  have herr : SQLiteEventStore.insertRaw rows e = .error .missingRequiredField := by
    obtain ⟨i, t, w, l, c, tr, s, ca⟩ := e
    cases i <;> cases t <;> cases w <;> cases c <;> cases tr <;> cases s <;> cases ca <;>
      simp_all [SQLiteEventStore.insertRaw]
  refine ⟨herr, fun rows' hok => ?_⟩
  rw [herr] at hok
  cases hok

/-- Witness for C8: inserting `rawNoId` (missing `id`) into the empty table
is rejected. -/
theorem insert_missing_required_field_rejected_witness :
    SQLiteEventStore.insertRaw [] rawNoId = .error .missingRequiredField :=
  (insert_missing_required_field_rejected [] rawNoId (Or.inl rfl)).1

/-! ### C3 -/

/-- C3 counterexample: a 1-ETH self-transfer of the tracked wallet `0xaaa`
(from = to = the tracked address, value passing the minimum).  The from
address is tracked, yet after processing the only stored event for that
wallet has type `transfer_in`, not `transfer_out`: `createEvent` decides the
type solely by whether the transfer's `to` matches the wallet. -/
theorem self_transfer_from_side_is_transfer_in :
    ((Indexer.processTransaction selfState selfTx 5 7).1.store.map
        (fun r => (r.wallet, r.type)))
      = [("0xaaa", EventType.transfer_in)] ∧
    EventType.transfer_in ≠ EventType.transfer_out := by
  constructor
  · simp only [Indexer.processTransaction]
    norm_num [selfState, selfTx, walletA, formatEther, lookupAssoc, jsToLower]
    decide
  · decide

/-- C3 amended: the event the Indexer builds for a tracked wallet has type
`transfer_out` for the from side whenever the transaction's `to` address
does not lowercase-equal the from address, and always `transfer_in` for the
to side; in the remaining case — a self-transfer, from = to tracked — the
from side's event also gets `transfer_in`
(`self_transfer_from_side_is_transfer_in`). -/
theorem event_type_follows_to_side :
    (∀ (st : IndexerState) (tx : Tx) (ts now : Nat) (fa : String) (w : Wallet),
      (∀ p ∈ st.walletMap, p.1 = jsToLower p.2.address) →
      tx.fromAddr = some fa →
      lookupAssoc st.walletMap (jsToLower fa) = some w →
      jsToLower (tx.toAddr.getD "") ≠ jsToLower fa →
      (createEvent (builtTransfer st tx ts) w.address w.label now).type
        = .transfer_out) ∧
    (∀ (st : IndexerState) (tx : Tx) (ts now : Nat) (ta : String) (w : Wallet),
      (∀ p ∈ st.walletMap, p.1 = jsToLower p.2.address) →
      tx.toAddr = some ta →
      lookupAssoc st.walletMap (jsToLower ta) = some w →
      (createEvent (builtTransfer st tx ts) w.address w.label now).type
        = .transfer_in) := by
  constructor
  · intro st tx ts now fa w hmap hfrom hA hneq
    have hkey : jsToLower fa = jsToLower w.address := lookupAssoc_walletMap_key hmap hA
    have htoAddr : (builtTransfer st tx ts).toAddr = tx.toAddr.getD "" := rfl
    have hcond : (jsToLower (tx.toAddr.getD "") == jsToLower w.address) = false := by
      rw [← hkey]
      exact beq_eq_false_iff_ne.mpr hneq
    simp [createEvent, htoAddr, hcond]
  · intro st tx ts now ta w hmap hto hB
    have hkey : jsToLower ta = jsToLower w.address := lookupAssoc_walletMap_key hmap hB
    have htoAddr : (builtTransfer st tx ts).toAddr = ta := by
      simp [builtTransfer, hto]
    simp [createEvent, htoAddr, hkey]

/-- Witness for the amended C3: in `pairState`, the from side of the
transaction `0xaaa → 0xbbb` gets a `transfer_out` event and the to side a
`transfer_in` event. -/
theorem event_type_follows_to_side_witness :
    (createEvent (builtTransfer pairState pairTx 5) walletA.address walletA.label 7).type
      = .transfer_out ∧
    (createEvent (builtTransfer pairState pairTx 5) walletB.address walletB.label 7).type
      = .transfer_in :=
  ⟨event_type_follows_to_side.1 pairState pairTx 5 7 "0xaaa" walletA (by decide) rfl
      (by decide) (by decide),
   event_type_follows_to_side.2 pairState pairTx 5 7 "0xbbb" walletB (by decide) rfl
      (by decide)⟩

/-! ### C4 -/

/-- C4: a transaction between two distinct tracked wallets A → B whose USD
value passes the minimum yields exactly the two upserts `transfer_out` for
A and `transfer_in` for B, both events embedding a transfer with the
transaction's hash; the ids differ, so on a table containing neither id the
table grows by exactly these two rows. -/
theorem two_tracked_wallets_yield_out_and_in :
    ∀ (st : IndexerState) (tx : Tx) (ts now : Nat) (fa ta : String) (wA wB : Wallet),
      (∀ p ∈ st.walletMap, p.1 = jsToLower p.2.address) →
      tx.fromAddr = some fa → tx.toAddr = some ta →
      lookupAssoc st.walletMap (jsToLower fa) = some wA →
      lookupAssoc st.walletMap (jsToLower ta) = some wB →
      jsToLower wA.address ≠ jsToLower wB.address →
      ¬ formatEther tx.value * st.ethPrice < st.config.minValueUsd →
      Indexer.processTransaction st tx ts now
        = ({ st with
              store := SQLiteEventStore.insert
                (SQLiteEventStore.insert st.store
                  (createEvent (builtTransfer st tx ts) wA.address wA.label now))
                (createEvent (builtTransfer st tx ts) wB.address wB.label now) },
           none) ∧
      (createEvent (builtTransfer st tx ts) wA.address wA.label now).type = .transfer_out ∧
      (createEvent (builtTransfer st tx ts) wB.address wB.label now).type = .transfer_in ∧
      (createEvent (builtTransfer st tx ts) wA.address wA.label now).transfer.hash = tx.hash ∧
      (createEvent (builtTransfer st tx ts) wB.address wB.label now).transfer.hash = tx.hash ∧
      (createEvent (builtTransfer st tx ts) wA.address wA.label now).id
        ≠ (createEvent (builtTransfer st tx ts) wB.address wB.label now).id ∧
      ((∀ r ∈ st.store,
          r.id ≠ (createEvent (builtTransfer st tx ts) wA.address wA.label now).id ∧
          r.id ≠ (createEvent (builtTransfer st tx ts) wB.address wB.label now).id) →
        (Indexer.processTransaction st tx ts now).1.store
          = st.store
            ++ [rowOfEvent (createEvent (builtTransfer st tx ts) wA.address wA.label now),
                rowOfEvent (createEvent (builtTransfer st tx ts) wB.address wB.label now)]) := by
  intro st tx ts now fa ta wA wB hmap hfrom hto hA hB hne hv
  have hkeyA : jsToLower fa = jsToLower wA.address := lookupAssoc_walletMap_key hmap hA
  have hkeyB : jsToLower ta = jsToLower wB.address := lookupAssoc_walletMap_key hmap hB
  have haddr : wA.address ≠ wB.address := fun h => hne (by rw [h])
  have htyA :
      (createEvent (builtTransfer st tx ts) wA.address wA.label now).type = .transfer_out := by
    have hcond : (jsToLower (builtTransfer st tx ts).toAddr == jsToLower wA.address) = false := by
      have : (builtTransfer st tx ts).toAddr = ta := by simp [builtTransfer, hto]
      rw [this, hkeyB]
      exact beq_eq_false_iff_ne.mpr (Ne.symm hne)
    simp [createEvent, hcond]
  have htyB :
      (createEvent (builtTransfer st tx ts) wB.address wB.label now).type = .transfer_in := by
    have : (builtTransfer st tx ts).toAddr = ta := by simp [builtTransfer, hto]
    simp [createEvent, this, hkeyB]
  have hid :
      (createEvent (builtTransfer st tx ts) wA.address wA.label now).id
        ≠ (createEvent (builtTransfer st tx ts) wB.address wB.label now).id := by
    intro h
    simp only [createEvent] at h
    exact haddr (generateEventId_wallet_inj h)
  have hmain :
      Indexer.processTransaction st tx ts now
        = ({ st with
              store := SQLiteEventStore.insert
                (SQLiteEventStore.insert st.store
                  (createEvent (builtTransfer st tx ts) wA.address wA.label now))
                (createEvent (builtTransfer st tx ts) wB.address wB.label now) },
           none) := by
    simp only [Indexer.processTransaction, hfrom, hto, Option.map_some', Option.some_bind,
      hA, hB, Option.isNone_some, Bool.and_self, Bool.false_eq_true, if_false, if_neg hv,
      insertRaw_toRaw]
  refine ⟨hmain, htyA, htyB, rfl, rfl, hid, ?_⟩
  intro hfresh
  rw [hmain]
  have h1 : st.store.filter
      (fun x => x.id != (createEvent (builtTransfer st tx ts) wA.address wA.label now).id)
      = st.store :=
    List.filter_eq_self.mpr fun r hr => bne_iff_ne.mpr (hfresh r hr).1
  have h2 : st.store.filter
      (fun x => x.id != (createEvent (builtTransfer st tx ts) wB.address wB.label now).id)
      = st.store :=
    List.filter_eq_self.mpr fun r hr => bne_iff_ne.mpr (hfresh r hr).2
  simp only [SQLiteEventStore.insert, upsertRow, rowOfEvent, List.filter_append, h1, h2]
  simp [hid]

/-- Witness for C4: processing `pairTx` (1 ETH, `0xaaa → 0xbbb`, both
tracked) in `pairState` gives the from side a `transfer_out` event. -/
theorem two_tracked_wallets_yield_out_and_in_witness :
    (createEvent (builtTransfer pairState pairTx 5) walletA.address walletA.label 7).type
      = .transfer_out :=
  (two_tracked_wallets_yield_out_and_in pairState pairTx 5 7 "0xaaa" "0xbbb" walletA walletB
    (by decide) rfl rfl (by decide) (by decide) (by decide)
    (by norm_num [pairState, pairTx, formatEther])).2.1

/-! ### Query-path helper lemmas -/

/-- Every event `query` returns comes from a stored row that satisfies the
assembled WHERE clause. -/
theorem mem_query_sound {rows : EventTable} {o : QueryOptions} {e : WhaleEvent}
    (he : e ∈ SQLiteEventStore.query rows o) :
    ∃ r, r ∈ rows ∧ matchesQuery o r = true ∧ e = rowToEvent r := by
  unfold SQLiteEventStore.query at he
  rw [List.mem_map] at he
  obtain ⟨r, hr, hre⟩ := he
  have hr2 := List.mem_of_mem_take hr
  rw [orderByCreatedAtDesc, List.mem_insertionSort, List.mem_filter] at hr2
  exact ⟨r, hr2.1, hr2.2, hre.symm⟩

instance : IsTotal EventRow (fun a b => b.created_at ≤ a.created_at) :=
  ⟨fun a b => Nat.le_total b.created_at a.created_at⟩

instance : IsTrans EventRow (fun a b => b.created_at ≤ a.created_at) :=
  ⟨fun _ _ _ hab hbc => le_trans hbc hab⟩

/-! ### C5 -/

/-- C5: on a table whose `significance_order` column is consistent with its
`significance` column (as every insert writes it), a query carrying
`minSignificance = m` only returns events whose significance rank is at
least `m`'s; in particular `minSignificance = medium` never returns a `low`
event. -/
theorem query_respects_min_significance :
    ∀ (rows : EventTable) (o : QueryOptions) (m : Significance),
      (∀ r ∈ rows, r.significance_order = SIGNIFICANCE_ORDER r.significance) →
      o.minSignificance = some m →
      (∀ e ∈ SQLiteEventStore.query rows o,
        SIGNIFICANCE_ORDER m ≤ SIGNIFICANCE_ORDER e.significance) ∧
      (m = .medium → ∀ e ∈ SQLiteEventStore.query rows o, e.significance ≠ .low) := by
  intro rows o m hwf hm
  have main : ∀ e ∈ SQLiteEventStore.query rows o,
      SIGNIFICANCE_ORDER m ≤ SIGNIFICANCE_ORDER e.significance := by
    intro e he
    obtain ⟨r, hr, hmatch, hre⟩ := mem_query_sound he
    unfold matchesQuery at hmatch
    rw [Bool.and_eq_true, Bool.and_eq_true] at hmatch
    have hmid := hmatch.1.2
    rw [hm] at hmid
    have hle : SIGNIFICANCE_ORDER m ≤ r.significance_order := of_decide_eq_true hmid
    rw [hwf r hr] at hle
    have : e.significance = r.significance := by rw [hre]; rfl
    rw [this]
    exact hle
  refine ⟨main, fun hmm e he hlow => ?_⟩
  have h := main e he
  rw [hmm, hlow] at h
  simp [SIGNIFICANCE_ORDER] at h

/-- Witness for C5: on a one-row table of high significance, a
medium-filtered query only returns ranks at least medium's. -/
theorem query_respects_min_significance_witness :
    SIGNIFICANCE_ORDER .medium ≤ SIGNIFICANCE_ORDER ((rowToEvent rowHigh).significance) :=
  (query_respects_min_significance [rowHigh]
      { chain := none, minSignificance := some .medium, limit := 10, cursor := none }
      .medium (by decide) rfl).1 (rowToEvent rowHigh) (by decide)

/-! ### C6 -/

/-- C6: `query` returns events ordered by `createdAt` descending, a cursor
is an exclusive upper bound on `createdAt`, and on the stored timestamps
[300, 200, 100]: `limit 2` returns the 300- and 200-events, the
`/whale-moves` protocol hands out continuation cursor "200", and `limit 2`
with cursor 200 returns only the 100-event. -/
theorem query_descending_order_and_cursor :
    (∀ (rows : EventTable) (o : QueryOptions),
      (SQLiteEventStore.query rows o).Pairwise (fun a b => b.createdAt ≤ a.createdAt)) ∧
    (∀ (rows : EventTable) (o : QueryOptions) (c : Nat), o.cursor = some c →
      ∀ e ∈ SQLiteEventStore.query rows o, e.createdAt < c) ∧
    SQLiteEventStore.query demoStore
        { chain := none, minSignificance := none, limit := 2, cursor := none }
      = [rowToEvent (rowAt 300), rowToEvent (rowAt 200)] ∧
    whaleMovesPage demoStore none 2 none none
      = ([rowToEvent (rowAt 300), rowToEvent (rowAt 200)], some "200") ∧
    SQLiteEventStore.query demoStore
        { chain := none, minSignificance := none, limit := 2, cursor := some 200 }
      = [rowToEvent (rowAt 100)] := by
  refine ⟨?_, ?_, by decide, by decide, by decide⟩
  · intro rows o
    have hs : (orderByCreatedAtDesc (rows.filter (matchesQuery o))).Pairwise
        (fun a b : EventRow => b.created_at ≤ a.created_at) :=
      List.sorted_insertionSort _ _
    exact List.Pairwise.map _ (fun _ _ h => h)
      (List.Pairwise.sublist (List.take_sublist _ _) hs)
  · intro rows o c hc e he
    obtain ⟨r, _, hmatch, hre⟩ := mem_query_sound he
    unfold matchesQuery at hmatch
    rw [Bool.and_eq_true, Bool.and_eq_true] at hmatch
    have hcur := hmatch.2
    rw [hc] at hcur
    have : e.createdAt = r.created_at := by rw [hre]; rfl
    rw [this]
    exact of_decide_eq_true hcur

/-- Witness for C6: in the three-event table, the event the cursor-200 page
returns indeed has `createdAt` strictly below 200. -/
theorem query_descending_order_and_cursor_witness :
    (rowToEvent (rowAt 100)).createdAt < 200 :=
  query_descending_order_and_cursor.2.1 demoStore
    { chain := none, minSignificance := none, limit := 2, cursor := some 200 }
    200 rfl (rowToEvent (rowAt 100)) (by decide)

/-! ### Indexer helper lemmas -/

/-- `processTransaction` never throws in the pure model: both inserts are of
fully-populated events. -/
theorem processTransaction_snd_none (st : IndexerState) (tx : Tx) (ts now : Nat) :
    (Indexer.processTransaction st tx ts now).2 = none := by
  simp only [Indexer.processTransaction, insertRaw_toRaw]
  split
  · rfl
  split
  · rfl
  split <;> split <;> rfl

/-- `processTransaction` leaves `lastBlock` untouched: it only writes the
store. -/
theorem processTransaction_lastBlock (st : IndexerState) (tx : Tx) (ts now : Nat) :
    (Indexer.processTransaction st tx ts now).1.lastBlock = st.lastBlock := by
  simp only [Indexer.processTransaction, insertRaw_toRaw]
  split
  · rfl
  split
  · rfl
  split <;> split <;> rfl

/-- The transaction loop never throws in the pure model. -/
theorem processTxList_snd_none (txs : List Tx) : ∀ (st : IndexerState) (ts now : Nat),
    (Indexer.processTxList st txs ts now).2 = none := by
  induction txs with
  | nil => intro st ts now; rfl
  | cons tx rest ih =>
    intro st ts now
    have h := processTransaction_snd_none st tx ts now
    rcases hpt : Indexer.processTransaction st tx ts now with ⟨st', e⟩
    rw [hpt] at h
    subst h
    simp only [Indexer.processTxList, hpt]
    exact ih st' ts now

/-- The transaction loop leaves `lastBlock` untouched. -/
theorem processTxList_lastBlock (txs : List Tx) : ∀ (st : IndexerState) (ts now : Nat),
    (Indexer.processTxList st txs ts now).1.lastBlock = st.lastBlock := by
  induction txs with
  | nil => intro st ts now; rfl
  | cons tx rest ih =>
    intro st ts now
    have h := processTransaction_snd_none st tx ts now
    have h2 := processTransaction_lastBlock st tx ts now
    rcases hpt : Indexer.processTransaction st tx ts now with ⟨st', e⟩
    rw [hpt] at h h2
    subst h
    simp only [Indexer.processTxList, hpt]
    rw [ih st' ts now]
    exact h2

/-- The block loop leaves `lastBlock` untouched (it is only `poll` that
advances it, after the loop). -/
theorem scanBlocks_lastBlock (getBlock : Nat → Except Unit (Option Block)) (now : Nat)
    (heights : List Nat) : ∀ st : IndexerState,
    (Indexer.scanBlocks getBlock now st heights).1.lastBlock = st.lastBlock := by
  induction heights with
  | nil => intro st; rfl
  | cons k rest ih =>
    intro st
    rcases hgb : getBlock k with _ | ob
    · simp [Indexer.scanBlocks, hgb]
    rcases ob with _ | block
    · simp only [Indexer.scanBlocks, hgb]
      exact ih st
    rcases hpre : block.prefetchedTransactions with _ | txs
    · simp only [Indexer.scanBlocks, hgb, hpre]
      exact ih st
    have hsnd := processTxList_snd_none txs st block.timestamp now
    rcases hpt : Indexer.processTxList st txs block.timestamp now with ⟨st', e⟩
    rw [hpt] at hsnd
    subst hsnd
    simp only [Indexer.scanBlocks, hgb, hpre, hpt]
    rw [ih st']
    have h2 := processTxList_lastBlock txs st block.timestamp now
    rw [hpt] at h2
    exact h2

/-- The per-height fold the success case of `poll` amounts to: each height's
transaction list is processed exactly once, in order. -/
def processBlocksFold (blocks : Nat → Block) (now : Nat) (st : IndexerState)
    (heights : List Nat) : IndexerState :=
  heights.foldl
    (fun s k =>
      (Indexer.processTxList s ((blocks k).prefetchedTransactions.getD [])
        (blocks k).timestamp now).1)
    st

/-- When every height's block fetch succeeds, the block loop is the
per-height fold and no error escapes. -/
theorem scanBlocks_all_fetches_ok (getBlock : Nat → Except Unit (Option Block))
    (now : Nat) (blocks : Nat → Block) (heights : List Nat) :
    ∀ st : IndexerState,
    (∀ k ∈ heights, getBlock k = .ok (some (blocks k))) →
    Indexer.scanBlocks getBlock now st heights
      = (processBlocksFold blocks now st heights, none) := by
  induction heights with
  | nil => intro st _; rfl
  | cons k rest ih =>
    intro st hfetch
    have hk := hfetch k (List.mem_cons_self k rest)
    have hrest : ∀ k' ∈ rest, getBlock k' = .ok (some (blocks k')) :=
      fun k' hk' => hfetch k' (List.mem_cons_of_mem k hk')
    rcases hpre : (blocks k).prefetchedTransactions with _ | txs
    · simp only [Indexer.scanBlocks, hk, hpre, processBlocksFold, List.foldl_cons,
        Option.getD_none]
      exact ih st hrest
    · have hsnd := processTxList_snd_none txs st (blocks k).timestamp now
      rcases hpt : Indexer.processTxList st txs (blocks k).timestamp now with ⟨st', e⟩
      rw [hpt] at hsnd
      subst hsnd
      simp only [Indexer.scanBlocks, hk, hpre, hpt, processBlocksFold, List.foldl_cons,
        Option.getD_some]
      exact ih st' hrest

/-! ### C9 -/

/-- C9: when the chain head `H` exceeds `lastBlock = L` and every block
fetch in the range succeeds, one poll iteration equals processing the
transaction lists of the heights `L+1 .. H` — an increasing duplicate-free
enumeration of exactly that closed range — once each in order, and then
setting `lastBlock := H`; while whenever any error escapes the block loop
(an RPC failure or an insert rejection), `lastBlock` is left at `L`. -/
theorem poll_processes_range_once_or_keeps_lastBlock :
    (∀ (getBlock : Nat → Except Unit (Option Block)) (H now : Nat) (st : IndexerState)
        (blocks : Nat → Block),
      st.lastBlock < H →
      (∀ k ∈ List.range' (st.lastBlock + 1) (H - st.lastBlock),
        getBlock k = .ok (some (blocks k))) →
      Indexer.poll getBlock H now st
        = ({ processBlocksFold blocks now st
              (List.range' (st.lastBlock + 1) (H - st.lastBlock)) with
            lastBlock := H }, none)) ∧
    (∀ L n : Nat, (List.range' (L + 1) n).Nodup) ∧
    (∀ L H k : Nat, L < H → (k ∈ List.range' (L + 1) (H - L) ↔ L + 1 ≤ k ∧ k ≤ H)) ∧
    (∀ (getBlock : Nat → Except Unit (Option Block)) (H now : Nat) (st : IndexerState)
        (err : IndexError),
      (Indexer.poll getBlock H now st).2 = some err →
      (Indexer.poll getBlock H now st).1.lastBlock = st.lastBlock) := by
  refine ⟨?_, ?_, ?_, ?_⟩
  · intro getBlock H now st blocks hH hfetch
    rw [Indexer.poll, if_neg (not_le.mpr hH),
      scanBlocks_all_fetches_ok getBlock now blocks _ st hfetch]
  · intro L n
    apply List.nodup_range'
    exact Nat.one_pos
  · intro L H k hLH
    rw [List.mem_range'_1]
    omega
  · intro getBlock H now st err hsome
    by_cases hH : H ≤ st.lastBlock
    · rw [Indexer.poll, if_pos hH] at hsome
      cases hsome
    · rw [Indexer.poll, if_neg hH] at hsome ⊢
      rcases hscan : Indexer.scanBlocks getBlock now st
          (List.range' (st.lastBlock + 1) (H - st.lastBlock)) with ⟨st', e⟩
      rw [hscan] at hsome
      cases e with
      | none => exact Option.noConfusion hsome
      | some e' =>
        show st'.lastBlock = st.lastBlock
        have h2 := scanBlocks_lastBlock getBlock now
          (List.range' (st.lastBlock + 1) (H - st.lastBlock)) st
        rw [hscan] at h2
        exact h2

/-- Indexer state at `lastBlock = 100` with no tracked wallets. -/
def idxState : IndexerState :=
  { config := { chain := .ethereum, pollIntervalMs := 15000, minValueUsd := 10000 },
    walletMap := [], ethPrice := 3200, lastBlock := 100, store := [] }

/-- A block with a present but empty transaction list. -/
def idleBlock : Block := { timestamp := 0, prefetchedTransactions := some [] }

/-- A chain access where every block fetch succeeds with `idleBlock`. -/
def okGetBlock : Nat → Except Unit (Option Block) := fun _ => .ok (some idleBlock)

/-- A chain access where every block fetch throws. -/
def errGetBlock : Nat → Except Unit (Option Block) := fun _ => .error ()

/-- Witness for C9: from `lastBlock = 100` with head 103, a successful poll
processes heights 101..103 and advances `lastBlock` to 103; with a throwing
chain access, `lastBlock` stays 100. -/
theorem poll_processes_range_once_or_keeps_lastBlock_witness :
    Indexer.poll okGetBlock 103 0 idxState
      = ({ processBlocksFold (fun _ => idleBlock) 0 idxState (List.range' 101 3) with
          lastBlock := 103 }, none) ∧
    (Indexer.poll errGetBlock 103 0 idxState).1.lastBlock = 100 :=
  ⟨poll_processes_range_once_or_keeps_lastBlock.1 okGetBlock 103 0 idxState
      (fun _ => idleBlock) (by decide) (fun _ _ => rfl),
   poll_processes_range_once_or_keeps_lastBlock.2.2.2 errGetBlock 103 0 idxState
      .rpc (by decide)⟩

/-! ### C10 -/

/-- The first seeded registry wallet: its address is EIP-55 checksummed
(mixed case), as the seed data ships it. -/
def vitalik : Wallet :=
  { address := "0xd8dA6BF26964aF9D7eEd9e03E53415D37aA96045", chain := .ethereum,
    label := some "Vitalik Buterin", source := some "manual", addedAt := 0,
    tags := ["founder", "influencer"] }

/-- Indexer state tracking `vitalik` under the lowercased map key, as
`Indexer.start` builds it. -/
def vitalikState : IndexerState :=
  { config := { chain := .ethereum, pollIntervalMs := 15000, minValueUsd := 0 },
    walletMap := [("0xd8da6bf26964af9d7eed9e03e53415d37aa96045", vitalik)],
    ethPrice := 1, lastBlock := 0, store := [] }

/-- A 1-ETH transaction from the tracked checksummed wallet to an untracked
address. -/
def vitalikTx : Tx :=
  { hash := "h3", fromAddr := some "0xd8dA6BF26964aF9D7eEd9e03E53415D37aA96045",
    toAddr := some "0xcccc", value := 10 ^ 18, blockNumber := some 9 }

/-- C10, failing input: the Indexer inserts the event with
`wallet = "0xd8dA6BF26964aF9D7eEd9e03E53415D37aA96045"` (the registry
casing), but `getByWallet` compares the stored value against the
*lowercased* query, so the insert-then-`getByWallet` round trip comes back
empty for every casing of the address — including the registry casing
itself and the all-lowercase form. -/
theorem getByWallet_misses_checksummed_registry_address :
    ((Indexer.processTransaction vitalikState vitalikTx 5 7).1.store.map
        (fun r => r.wallet))
      = ["0xd8dA6BF26964aF9D7eEd9e03E53415D37aA96045"] ∧
    SQLiteEventStore.getByWallet (Indexer.processTransaction vitalikState vitalikTx 5 7).1.store
      "0xd8dA6BF26964aF9D7eEd9e03E53415D37aA96045" 50 = [] ∧
    SQLiteEventStore.getByWallet (Indexer.processTransaction vitalikState vitalikTx 5 7).1.store
      "0XD8DA6BF26964AF9D7EED9E03E53415D37AA96045" 50 = [] ∧
    SQLiteEventStore.getByWallet (Indexer.processTransaction vitalikState vitalikTx 5 7).1.store
      "0xd8da6bf26964af9d7eed9e03e53415d37aa96045" 50 = [] := by
  have hstore : (Indexer.processTransaction vitalikState vitalikTx 5 7).1.store
      = [rowOfEvent (createEvent (builtTransfer vitalikState vitalikTx 5)
          vitalik.address vitalik.label 7)] := by
    simp only [Indexer.processTransaction]
    norm_num [vitalikState, vitalikTx, vitalik, formatEther, lookupAssoc, jsToLower,
      insertRaw_toRaw, SQLiteEventStore.insert, upsertRow, builtTransfer, createEvent,
      rowOfEvent]
    decide
  refine ⟨?_, ?_, ?_, ?_⟩ <;> rw [hstore] <;> decide

/-! ### Association-map helper lemmas for the price oracle -/

theorem find?_filter_of_imp {α : Type} (m : List α) (p q : α → Bool)
    (h : ∀ a, p a = true → q a = true) :
    (m.filter q).find? p = m.find? p := by
  induction m with
  | nil => rfl
  | cons a t ih =>
    by_cases hq : q a = true
    · rw [List.filter_cons_of_pos hq]
      by_cases hp : p a = true
      · rw [List.find?_cons_of_pos _ hp, List.find?_cons_of_pos _ hp]
      · rw [List.find?_cons_of_neg _ (by simpa using hp),
          List.find?_cons_of_neg _ (by simpa using hp)]
        exact ih
    · have hp : ¬ p a = true := fun hpa => hq (h a hpa)
      rw [List.filter_cons_of_neg (by simpa using hq),
        List.find?_cons_of_neg _ (by simpa using hp)]
      exact ih

/-- `Map.set` then `Map.get`: the set key reads back the new value, any
other key is untouched. -/
theorem lookup_setAssoc {β : Type} (m : List (String × β)) (k k' : String) (v : β) :
    lookupAssoc (setAssoc m k v) k'
      = if k' = k then some v else lookupAssoc m k' := by
  unfold lookupAssoc setAssoc
  rw [List.find?_append]
  by_cases h : k' = k
  · subst h
    have h1 : (m.filter (fun p => p.1 != k')).find? (fun p => p.1 == k') = none := by
      rw [List.find?_eq_none]
      intro a ha
      rw [List.mem_filter, bne_iff_ne] at ha
      simp [ha.2]
    rw [h1]
    simp
  · have h2 : List.find? (fun p => p.1 == k') [(k, v)] = none := by
      have : ((k, v).1 == k') = false := beq_eq_false_iff_ne.mpr (Ne.symm h)
      simp [List.find?_cons_of_neg, this]
    have h3 : (m.filter (fun p => p.1 != k)).find? (fun p => p.1 == k')
        = m.find? (fun p => p.1 == k') := by
      apply find?_filter_of_imp
      intro a ha
      have : a.1 = k' := by simpa using ha
      rw [bne_iff_ne, this]
      exact h
    rw [h2, h3, if_neg h]
    cases m.find? (fun p => p.1 == k') <;> rfl

/-- A successful lookup comes from an entry of the map. -/
theorem lookupAssoc_eq_some_mem {β : Type} {m : List (String × β)} {k : String} {v : β}
    (h : lookupAssoc m k = some v) : ∃ p, p ∈ m ∧ p.1 = k ∧ p.2 = v := by
  unfold lookupAssoc at h
  rw [Option.map_eq_some'] at h
  obtain ⟨p, hfind, hp2⟩ := h
  exact ⟨p, List.mem_of_find?_eq_some hfind, by simpa using List.find?_some hfind, hp2⟩

/-- Reading the result of the failure loop of `getPrices`: every symbol of
the fetch list reads back its cached-or-zero price, all other keys are
untouched. -/
theorem lookup_failure_foldl (cache : PriceCache) (fetchList : List String) :
    ∀ (res : List (String × ℚ)) (u : String),
    lookupAssoc
        (fetchList.foldl (fun r symbol => setAssoc r symbol (cachedPriceOr0 cache symbol)) res)
        u
      = if u ∈ fetchList then some (cachedPriceOr0 cache u) else lookupAssoc res u := by
  induction fetchList with
  | nil => intro res u; simp
  | cons x xs ih =>
    intro res u
    rw [List.foldl_cons, ih, lookup_setAssoc]
    by_cases hx : u ∈ xs
    · simp [hx]
    · by_cases hux : u = x
      · subst hux
        simp [hx]
      · simp [hx, hux]

/-- One scan iteration either leaves the fetch list alone or pushes the
(uppercased, CoinGecko-mapped) symbol onto it. -/
theorem scanStep_snd (cache : PriceCache) (ttl now : Nat)
    (acc : List (String × ℚ) × List String) (s : String) :
    (scanStep cache ttl now acc s).2 = acc.2 ∨
    ((scanStep cache ttl now acc s).2 = acc.2 ++ [jsToUpper s] ∧
      (lookupAssoc SYMBOL_TO_COINGECKO (jsToUpper s)).isSome = true) := by
  simp only [scanStep]
  repeat' split
  all_goals try exact Or.inl rfl
  all_goals rename_i heq
  all_goals exact Or.inr ⟨rfl, by rw [heq]; rfl⟩

/-- One scan iteration either leaves the result alone (the push case), sets
a stablecoin to 1, or sets the symbol to its cached-or-zero price — given
that every cached symbol is CoinGecko-mapped. -/
theorem scanStep_fst (cache : PriceCache) (ttl now : Nat)
    (acc : List (String × ℚ) × List String) (s : String)
    (hinv : ∀ p ∈ cache, (lookupAssoc SYMBOL_TO_COINGECKO p.1).isSome = true) :
    (scanStep cache ttl now acc s).1 = acc.1 ∨
    (jsToUpper s ∈ STABLECOINS ∧
      (scanStep cache ttl now acc s).1 = setAssoc acc.1 (jsToUpper s) 1) ∨
    (scanStep cache ttl now acc s).1
      = setAssoc acc.1 (jsToUpper s) (cachedPriceOr0 cache (jsToUpper s)) := by
  simp only [scanStep]
  by_cases hst : jsToUpper s ∈ STABLECOINS
  · rw [if_pos hst]
    exact Or.inr (Or.inl ⟨hst, rfl⟩)
  rw [if_neg hst]
  rcases hc : lookupAssoc cache (jsToUpper s) with _ | cached
  · rcases hm : lookupAssoc SYMBOL_TO_COINGECKO (jsToUpper s) with _ | cid
    · refine Or.inr (Or.inr ?_)
      have : cachedPriceOr0 cache (jsToUpper s) = 0 := by
        simp [cachedPriceOr0, hc]
      rw [this]
    · exact Or.inl rfl
  · dsimp only
    by_cases hfresh : now - cached.timestamp < ttl
    · rw [if_pos hfresh]
      refine Or.inr (Or.inr ?_)
      have : cachedPriceOr0 cache (jsToUpper s) = cached.price := by
        simp [cachedPriceOr0, hc]
      rw [this]
    · rw [if_neg hfresh]
      rcases hm : lookupAssoc SYMBOL_TO_COINGECKO (jsToUpper s) with _ | cid
      · obtain ⟨p, hp, hp1, _⟩ := lookupAssoc_eq_some_mem hc
        have := hinv p hp
        rw [hp1, hm] at this
        cases this
      · exact Or.inl rfl

/-- One scan iteration accounts for its own symbol: afterwards the
uppercased symbol is on the fetch list or has a result entry. -/
theorem scanStep_handles (cache : PriceCache) (ttl now : Nat)
    (acc : List (String × ℚ) × List String) (s : String) :
    jsToUpper s ∈ (scanStep cache ttl now acc s).2 ∨
    lookupAssoc (scanStep cache ttl now acc s).1 (jsToUpper s) ≠ none := by
  simp only [scanStep]
  repeat' split
  all_goals try exact Or.inl (List.mem_append_right _ (List.mem_singleton_self _))
  all_goals refine Or.inr ?_
  all_goals rw [lookup_setAssoc, if_pos rfl]
  all_goals exact Option.noConfusion

/-- The scan fold never drops a fetch-list entry. -/
theorem scanFold_fetch_mono (cache : PriceCache) (ttl now : Nat) (symbols : List String) :
    ∀ (acc : List (String × ℚ) × List String) (u : String), u ∈ acc.2 →
      u ∈ (symbols.foldl (scanStep cache ttl now) acc).2 := by
  induction symbols with
  | nil => intro acc u hu; exact hu
  | cons s rest ih =>
    intro acc u hu
    rw [List.foldl_cons]
    apply ih
    rcases scanStep_snd cache ttl now acc s with h | ⟨h, _⟩
    · rw [h]; exact hu
    · rw [h]; exact List.mem_append_left _ hu

/-- The scan fold never deletes a result entry. -/
theorem scanFold_lookup_preserve (cache : PriceCache) (ttl now : Nat)
    (symbols : List String)
    (hinv : ∀ p ∈ cache, (lookupAssoc SYMBOL_TO_COINGECKO p.1).isSome = true) :
    ∀ (acc : List (String × ℚ) × List String) (u : String),
      lookupAssoc acc.1 u ≠ none →
      lookupAssoc (symbols.foldl (scanStep cache ttl now) acc).1 u ≠ none := by
  induction symbols with
  | nil => intro acc u hu; exact hu
  | cons s rest ih =>
    intro acc u hu
    rw [List.foldl_cons]
    apply ih
    rcases scanStep_fst cache ttl now acc s hinv with h | ⟨_, h⟩ | h <;> rw [h]
    · exact hu
    all_goals rw [lookup_setAssoc]
    all_goals split
    all_goals first | exact Option.noConfusion | exact hu

/-- Invariants of the first loop of `getPrices` (given that every cached
symbol is CoinGecko-mapped): every fetch-list entry is mapped, every result
entry of a non-stablecoin carries its cached-or-zero price, and every
processed symbol is on the fetch list or has a result entry. -/
theorem scanFold_spec (cache : PriceCache) (ttl now : Nat)
    (hinv : ∀ p ∈ cache, (lookupAssoc SYMBOL_TO_COINGECKO p.1).isSome = true) :
    ∀ (symbols : List String) (acc : List (String × ℚ) × List String),
      (∀ u ∈ acc.2, (lookupAssoc SYMBOL_TO_COINGECKO u).isSome = true) →
      (∀ u q, u ∉ STABLECOINS → lookupAssoc acc.1 u = some q →
        q = cachedPriceOr0 cache u) →
      (∀ u ∈ (symbols.foldl (scanStep cache ttl now) acc).2,
        (lookupAssoc SYMBOL_TO_COINGECKO u).isSome = true) ∧
      (∀ u q, u ∉ STABLECOINS →
        lookupAssoc (symbols.foldl (scanStep cache ttl now) acc).1 u = some q →
        q = cachedPriceOr0 cache u) ∧
      (∀ s ∈ symbols, jsToUpper s ∉ STABLECOINS →
        (jsToUpper s ∈ (symbols.foldl (scanStep cache ttl now) acc).2 ∨
          lookupAssoc (symbols.foldl (scanStep cache ttl now) acc).1 (jsToUpper s)
            ≠ none)) := by
  intro symbols
  induction symbols with
  | nil =>
    intro acc h2 h1
    exact ⟨h2, h1, fun s hs => absurd hs (List.not_mem_nil s)⟩
  | cons s rest ih =>
    intro acc h2 h1
    have h2' : ∀ u ∈ (scanStep cache ttl now acc s).2,
        (lookupAssoc SYMBOL_TO_COINGECKO u).isSome = true := by
      rcases scanStep_snd cache ttl now acc s with h | ⟨h, hmap⟩ <;> rw [h]
      · exact h2
      · intro u hu
        rcases List.mem_append.mp hu with hu' | hu'
        · exact h2 u hu'
        · rw [List.mem_singleton.mp hu']
          exact hmap
    have h1' : ∀ u q, u ∉ STABLECOINS →
        lookupAssoc (scanStep cache ttl now acc s).1 u = some q →
        q = cachedPriceOr0 cache u := by
      rcases scanStep_fst cache ttl now acc s hinv with h | ⟨hst, h⟩ | h <;> rw [h]
      · exact h1
      · intro u q hu hl
        rw [lookup_setAssoc] at hl
        split at hl
        · rename_i heq
          rw [heq] at hu
          exact absurd hst hu
        · exact h1 u q hu hl
      · intro u q hu hl
        rw [lookup_setAssoc] at hl
        split at hl
        · rename_i heq
          rw [heq]
          exact (Option.some_inj.mp hl).symm
        · exact h1 u q hu hl
    rw [List.foldl_cons]
    obtain ⟨g2, g1, gproc⟩ := ih (scanStep cache ttl now acc s) h2' h1'
    refine ⟨g2, g1, ?_⟩
    intro t ht hnst
    rcases List.mem_cons.mp ht with rfl | ht'
    · rcases scanStep_handles cache ttl now acc t with h | h
      · exact Or.inl (scanFold_fetch_mono cache ttl now rest _ _ h)
      · exact Or.inr (scanFold_lookup_preserve cache ttl now rest hinv _ _ h)
    · exact gproc t ht' hnst

/-! ### C7 -/

/-- C7: when the batched price fetch fails (non-ok response or transport
error — the call itself cannot raise, the model is total), `getPrices`
leaves the cache untouched, and every requested non-stablecoin symbol reads
back its last cached price when a cache entry exists and 0 otherwise —
given the cache invariant that every cached symbol is CoinGecko-mapped,
which is exactly what the success path maintains. -/
theorem getPrices_failure_returns_cached_or_zero :
    ∀ (cache : PriceCache) (cacheTtlMs now : Nat) (symbols : List String),
      (∀ p ∈ cache, (lookupAssoc SYMBOL_TO_COINGECKO p.1).isSome = true) →
      (CoinGeckoPriceOracle.getPrices cache cacheTtlMs now symbols .failure).2 = cache ∧
      ∀ s ∈ symbols, jsToUpper s ∉ STABLECOINS →
        lookupAssoc
            (CoinGeckoPriceOracle.getPrices cache cacheTtlMs now symbols .failure).1
            (jsToUpper s)
          = some (cachedPriceOr0 cache (jsToUpper s)) := by
  intro cache ttl now symbols hinv
  obtain ⟨hmapped, hres, hproc⟩ :=
    scanFold_spec cache ttl now hinv symbols ([], []) (by simp)
      (by intro u q _ hl; simp [lookupAssoc] at hl)
  constructor
  · simp only [CoinGeckoPriceOracle.getPrices]
    split
    · rfl
    · rfl
  · intro s hs hnst
    have hscan : scanSymbols cache ttl now symbols
        = symbols.foldl (scanStep cache ttl now) ([], []) := rfl
    simp only [CoinGeckoPriceOracle.getPrices]
    split
    · rename_i hemp
      rw [hscan] at hemp
      rcases hproc s hs hnst with hmem | hlook
      · rw [List.isEmpty_iff] at hemp
        rw [hemp] at hmem
        exact absurd hmem (List.not_mem_nil _)
      · rcases Option.ne_none_iff_exists'.mp hlook with ⟨q, hq⟩
        rw [hscan, hq, hres (jsToUpper s) q hnst hq]
    · rw [hscan, lookup_failure_foldl]
      split
      · rfl
      · rename_i hnmem
        rcases hproc s hs hnst with hmem | hlook
        · exact absurd hmem hnmem
        · rcases Option.ne_none_iff_exists'.mp hlook with ⟨q, hq⟩
          rw [hq, hres (jsToUpper s) q hnst hq]

/-- An entry of the map after `Map.set` is an old entry or the new pair. -/
theorem mem_setAssoc {β : Type} {m : List (String × β)} {p : String × β} {k : String}
    {v : β} (h : p ∈ setAssoc m k v) : p ∈ m ∨ p = (k, v) := by
  rcases List.mem_append.mp h with h' | h'
  · exact Or.inl (List.mem_filter.mp h').1
  · exact Or.inr (List.mem_singleton.mp h')

/-- The success loop only writes cache entries for the symbols it fetched. -/
theorem successFold_cache_mapped (data : List (String × ℚ)) (now : Nat) :
    ∀ (fetchList : List String) (acc : List (String × ℚ) × PriceCache),
      (∀ u ∈ fetchList, (lookupAssoc SYMBOL_TO_COINGECKO u).isSome = true) →
      (∀ p ∈ acc.2, (lookupAssoc SYMBOL_TO_COINGECKO p.1).isSome = true) →
      ∀ p ∈ (fetchList.foldl (fetchStep data now) acc).2,
        (lookupAssoc SYMBOL_TO_COINGECKO p.1).isSome = true := by
  intro fetchList
  induction fetchList with
  | nil => intro acc _ hacc; exact hacc
  | cons x xs ih =>
    intro acc hall hacc
    rw [List.foldl_cons]
    apply ih
    · intro u hu
      exact hall u (List.mem_cons_of_mem _ hu)
    · intro p hp
      rcases mem_setAssoc hp with h' | h'
      · exact hacc p h'
      · rw [h']
        exact hall x (List.mem_cons_self _ _)

/-- A successful `getPrices` call preserves the cache invariant that C7
relies on: every cached symbol is CoinGecko-mapped.  Together with the
failure case leaving the cache untouched, the invariant holds in every
reachable cache state (the cache starts empty). -/
theorem getPrices_success_cache_keys_mapped :
    ∀ (cache : PriceCache) (cacheTtlMs now : Nat) (symbols : List String)
        (data : List (String × ℚ)),
      (∀ p ∈ cache, (lookupAssoc SYMBOL_TO_COINGECKO p.1).isSome = true) →
      ∀ p ∈ (CoinGeckoPriceOracle.getPrices cache cacheTtlMs now symbols (.ok data)).2,
        (lookupAssoc SYMBOL_TO_COINGECKO p.1).isSome = true := by
  intro cache ttl now symbols data hinv
  obtain ⟨hmapped, _, _⟩ :=
    scanFold_spec cache ttl now hinv symbols ([], []) (by simp)
      (by intro u q _ hl; simp [lookupAssoc] at hl)
  simp only [CoinGeckoPriceOracle.getPrices]
  split
  · exact hinv
  · exact successFold_cache_mapped data now _ _ hmapped hinv

/-- A cache holding a stale BTC entry at 50000 USD. -/
def btcCache : PriceCache := [("BTC", { price := 50000, timestamp := 0 })]

/-- Witness for C7: with a stale cached BTC price and a failing fetch,
requesting BTC and the unknown symbol FOO returns the cached 50000 for BTC,
0 for FOO, and leaves the cache unchanged. -/
theorem getPrices_failure_returns_cached_or_zero_witness :
    (CoinGeckoPriceOracle.getPrices btcCache 60000 100000 ["BTC", "FOO"] .failure).2
      = btcCache ∧
    lookupAssoc
        (CoinGeckoPriceOracle.getPrices btcCache 60000 100000 ["BTC", "FOO"] .failure).1
        "BTC" = some 50000 ∧
    lookupAssoc
        (CoinGeckoPriceOracle.getPrices btcCache 60000 100000 ["BTC", "FOO"] .failure).1
        "FOO" = some 0 := by
  have h := getPrices_failure_returns_cached_or_zero btcCache 60000 100000
    ["BTC", "FOO"] (by decide)
  refine ⟨h.1, ?_, ?_⟩
  · have hb := h.2 "BTC" (by decide) (by decide)
    rwa [show cachedPriceOr0 btcCache (jsToUpper "BTC") = 50000 by decide,
      show jsToUpper "BTC" = "BTC" from rfl] at hb
  · have hf := h.2 "FOO" (by decide) (by decide)
    rwa [show cachedPriceOr0 btcCache (jsToUpper "FOO") = 0 by decide,
      show jsToUpper "FOO" = "FOO" from rfl] at hf

end WhaleTracker
